import Mathlib

/-!
Verification of the ChaCha20 stream cipher implementation (src/lib.rs).

The Rust source is shallowly embedded: 32-bit machine words become `Nat`
with explicit reduction modulo `2 ^ 32` wherever the source performs
wrapping (release-mode) arithmetic, byte buffers become `List Nat`, and
the mutable `ChaCha20` struct becomes a record threaded through
explicit state-passing functions.
-/

/-- Modulus of 32-bit machine words. -/
def U32_MOD : Nat := 4294967296

/-- Wrapping 32-bit addition, as in wrapping_add of the source. -/
def wadd (x y : Nat) : Nat := (x + y) % U32_MOD

/-- Bitwise xor on 32-bit words; no reduction is needed on values below the modulus. -/
def wxor (x y : Nat) : Nat := Nat.xor x y

/-- Left rotation of a 32-bit word, as in rotate_left of the source. -/
def rotl (x n : Nat) : Nat := ((x <<< n) ||| (x >>> (32 - n))) % U32_MOD

def WORD_1 : Nat := 0x61707865
def WORD_2 : Nat := 0x3320646e
def WORD_3 : Nat := 0x79622d32
def WORD_4 : Nat := 0x6b206574

/-- The eight quadruples of state indices used by a double round, in source order. -/
def CHACHA_ROUND_INDICIES : List (Nat × Nat × Nat × Nat) :=
  [(0, 4, 8, 12),
   (1, 5, 9, 13),
   (2, 6, 10, 14),
   (3, 7, 11, 15),
   (0, 5, 10, 15),
   (1, 6, 11, 12),
   (2, 7, 8, 13),
   (3, 4, 9, 14)]

def CHACHA_BLOCKSIZE : Nat := 64

/-- The ChaCha20 cipher struct: key, nonce, block index (inner) and intra-block offset (seek). -/
structure ChaCha20 where
  key : List Nat
  nonce : List Nat
  inner : Nat
  seek : Nat

/-- ChaCha20 new: construct from an index in the keystream. -/
def ChaCha20.new (key : List Nat) (nonce : List Nat) (seek : Nat) : ChaCha20 :=
  { key := key, nonce := nonce, inner := seek / 64, seek := seek % 64 }

/-- ChaCha20 new_from_block: construct from a block in the keystream. -/
def ChaCha20.new_from_block (key : List Nat) (nonce : List Nat) (block : Nat) : ChaCha20 :=
  { key := key, nonce := nonce, inner := block, seek := 0 }

/-- The quarter round of the source: four wrapping additions, four xors, four rotations,
applied to the state entries at positions a, b, c, d. -/
def quarter_round (state : List Nat) (a b c d : Nat) : List Nat :=
  let state := state.set a (wadd (state.getD a 0) (state.getD b 0))
  let state := state.set d (rotl (wxor (state.getD d 0) (state.getD a 0)) 16)
  let state := state.set c (wadd (state.getD c 0) (state.getD d 0))
  let state := state.set b (rotl (wxor (state.getD b 0) (state.getD c 0)) 12)
  let state := state.set a (wadd (state.getD a 0) (state.getD b 0))
  let state := state.set d (rotl (wxor (state.getD d 0) (state.getD a 0)) 8)
  let state := state.set c (wadd (state.getD c 0) (state.getD d 0))
  let state := state.set b (rotl (wxor (state.getD b 0) (state.getD c 0)) 7)
  state

/-- The double round of the source: quarter rounds over CHACHA_ROUND_INDICIES in order. -/
def double_round (state : List Nat) : List Nat :=
  CHACHA_ROUND_INDICIES.foldl (fun s q => quarter_round s q.1 q.2.1 q.2.2.1 q.2.2.2) state

/-- The block transform of the source: save the state, run ten double rounds, and
feed the saved state forward with wrapping addition. -/
def chacha_block (state : List Nat) : List Nat :=
  let initial_state := state
  let state := Nat.iterate double_round 10 state
  List.zipWith (fun modified initial => wadd modified initial) state initial_state

/-- Four little-endian bytes assembled into a 32-bit word, as in from_le_bytes. -/
def from_le_bytes (b : List Nat) : Nat :=
  b.getD 0 0 + 256 * b.getD 1 0 + 65536 * b.getD 2 0 + 16777216 * b.getD 3 0

/-- Four-byte slice of a byte buffer starting at index i, as in the ranged
indexing key[i..i+4] of the source. -/
def slice4 (l : List Nat) (i : Nat) : List Nat := (l.drop i).take 4

/-- The state builder of the source: constants, key words, counter, nonce words. -/
def prepare_state (key : List Nat) (nonce : List Nat) (count : Nat) : List Nat :=
  let state := List.replicate 16 0
  let state := state.set 0 WORD_1
  let state := state.set 1 WORD_2
  let state := state.set 2 WORD_3
  let state := state.set 3 WORD_4
  let state := state.set 4 (from_le_bytes (slice4 key 0))
  let state := state.set 5 (from_le_bytes (slice4 key 4))
  let state := state.set 6 (from_le_bytes (slice4 key 8))
  let state := state.set 7 (from_le_bytes (slice4 key 12))
  let state := state.set 8 (from_le_bytes (slice4 key 16))
  let state := state.set 9 (from_le_bytes (slice4 key 20))
  let state := state.set 10 (from_le_bytes (slice4 key 24))
  let state := state.set 11 (from_le_bytes (slice4 key 28))
  let state := state.set 12 count
  let state := state.set 13 (from_le_bytes (slice4 nonce 0))
  let state := state.set 14 (from_le_bytes (slice4 nonce 4))
  let state := state.set 15 (from_le_bytes (slice4 nonce 8))
  state

/-- A 32-bit word serialized as four little-endian bytes, as in to_le_bytes. -/
def to_le_bytes (w : Nat) : List Nat :=
  [w % 256, w / 256 % 256, w / 65536 % 256, w / 16777216 % 256]

/-- The keystream serializer of the source: each state word written as four
little-endian bytes, word 0 first. -/
def keystream_from_state : List Nat → List Nat
  | [] => []
  | w :: ws => to_le_bytes w ++ keystream_from_state ws

/-- The keystream window of the source: two consecutive blocks are generated,
concatenated into a 128-byte buffer, and the 64-byte slice starting at the
intra-block offset is returned.  The successor of the block index is taken
modulo 2 ^ 32, the wrapping behaviour of release-mode u32 addition. -/
def keystream_at_slice (key : List Nat) (nonce : List Nat) (inner : Nat) (seek : Nat) :
    List Nat :=
  let state1 := chacha_block (prepare_state key nonce inner)
  let first_half := keystream_from_state state1
  let state2 := chacha_block (prepare_state key nonce ((inner + 1) % U32_MOD))
  let second_half := keystream_from_state state2
  let keystream := first_half ++ second_half
  (keystream.drop seek).take 64

/-- The while loop of apply_keystream: process the given number of full 64-byte
chunks, xoring each against the keystream at the running block index and
advancing the block index once per chunk.  Returns the final block index, the
processed prefix, and the untouched remainder of the buffer. -/
def apply_full_blocks (key : List Nat) (nonce : List Nat) (seek : Nat) :
    Nat → Nat → List Nat → Nat × List Nat × List Nat
  | inner, 0, msg => (inner, [], msg)
  | inner, n + 1, msg =>
    let kstream := keystream_at_slice key nonce inner seek
    let chunk := List.zipWith Nat.xor (msg.take 64) kstream
    let r := apply_full_blocks key nonce seek ((inner + 1) % U32_MOD) n (msg.drop 64)
    (r.1, chunk ++ r.2.1, r.2.2)

/-- ChaCha20 apply_keystream: xor the keystream into the message buffer, full
chunks first, then the final partial chunk if the length is not a multiple
of 64.  Returns the updated cipher and the mutated buffer. -/
def ChaCha20.apply_keystream (self : ChaCha20) (msg : List Nat) : ChaCha20 × List Nat :=
  let num_full_blocks := msg.length / CHACHA_BLOCKSIZE
  let r := apply_full_blocks self.key self.nonce self.seek self.inner num_full_blocks msg
  if msg.length % 64 > 0 then
    let kstream := keystream_at_slice self.key self.nonce r.1 self.seek
    ({ self with inner := (r.1 + 1) % U32_MOD },
     r.2.1 ++ List.zipWith Nat.xor r.2.2 kstream)
  else
    ({ self with inner := r.1 }, r.2.1 ++ r.2.2)

/-- ChaCha20 block: reposition the cursor to the start of the given block. -/
def ChaCha20.block (self : ChaCha20) (block : Nat) : ChaCha20 :=
  { self with inner := block, seek := 0 }

/-- ChaCha20 seek (named seek_index here because the struct field is already
named seek): reposition the cursor to an absolute byte index in the keystream. -/
def ChaCha20.seek_index (self : ChaCha20) (seek : Nat) : ChaCha20 :=
  { self with inner := seek / 64, seek := seek % 64 }

/-- ChaCha20 get_keystream: reposition to the given block and return the
64-byte keystream there. -/
def ChaCha20.get_keystream (self : ChaCha20) (block : Nat) : ChaCha20 × List Nat :=
  let self := self.block block
  (self, keystream_at_slice self.key self.nonce self.inner self.seek)


/-- Reference definition, following the specification: one application of the
quarter round to each of the eight quadruples — four column quadruples
followed by four diagonal quadruples, written out in the normative order. -/
def spec_double_round (s : List Nat) : List Nat :=
  let s := quarter_round s 0 4 8 12
  let s := quarter_round s 1 5 9 13
  let s := quarter_round s 2 6 10 14
  let s := quarter_round s 3 7 11 15
  let s := quarter_round s 0 5 10 15
  let s := quarter_round s 1 6 11 12
  let s := quarter_round s 2 7 8 13
  let s := quarter_round s 3 4 9 14
  s

/-- Reference definition, following the specification: a 32-bit little-endian
word read from a byte buffer at offset i. -/
def le_word (b : List Nat) (i : Nat) : Nat :=
  b.getD i 0 + 2 ^ 8 * b.getD (i + 1) 0 + 2 ^ 16 * b.getD (i + 2) 0 + 2 ^ 24 * b.getD (i + 3) 0

/-- Reference definition, following the specification: the 64-byte RFC 8439
keystream block for a given block counter is the serialized block transform of
the initial state for that counter.  The counter is a 32-bit field, so it is
reduced modulo 2 ^ 32. -/
def ref_block (key nonce : List Nat) (counter : Nat) : List Nat :=
  keystream_from_state (chacha_block (prepare_state key nonce (counter % U32_MOD)))

/-- Reference definition, following the specification: byte i of the infinite
RFC 8439 keystream is byte i mod 64 of the block with counter i div 64. -/
def ref_keystream_byte (key nonce : List Nat) (i : Nat) : Nat :=
  (ref_block key nonce (i / 64)).getD (i % 64) 0

/-- Reference definition, following the specification: keystream bytes
start .. start + len - 1 of the RFC 8439 keystream. -/
def ref_keystream_bytes (key nonce : List Nat) (start len : Nat) : List Nat :=
  (List.range len).map (fun t => ref_keystream_byte key nonce (start + t))

/-- Key of the RFC 8439 encryption test vector. -/
def RFC_KEY : List Nat :=
  [0x00, 0x01, 0x02, 0x03, 0x04, 0x05, 0x06, 0x07, 0x08, 0x09, 0x0a, 0x0b, 0x0c, 0x0d, 0x0e, 0x0f,
   0x10, 0x11, 0x12, 0x13, 0x14, 0x15, 0x16, 0x17, 0x18, 0x19, 0x1a, 0x1b, 0x1c, 0x1d, 0x1e, 0x1f]

/-- Nonce of the RFC 8439 encryption test vector. -/
def RFC_NONCE : List Nat :=
  [0x00, 0x00, 0x00, 0x00, 0x00, 0x00, 0x00, 0x4a, 0x00, 0x00, 0x00, 0x00]

/-- The 114-byte sunscreen plaintext of the RFC 8439 encryption test vector. -/
def RFC_PLAINTEXT : List Nat :=
  [0x4c, 0x61, 0x64, 0x69, 0x65, 0x73, 0x20, 0x61, 0x6e, 0x64, 0x20, 0x47, 0x65, 0x6e, 0x74,
   0x6c, 0x65, 0x6d, 0x65, 0x6e, 0x20, 0x6f, 0x66, 0x20, 0x74, 0x68, 0x65, 0x20, 0x63, 0x6c,
   0x61, 0x73, 0x73, 0x20, 0x6f, 0x66, 0x20, 0x27, 0x39, 0x39, 0x3a, 0x20, 0x49, 0x66, 0x20,
   0x49, 0x20, 0x63, 0x6f, 0x75, 0x6c, 0x64, 0x20, 0x6f, 0x66, 0x66, 0x65, 0x72, 0x20, 0x79,
   0x6f, 0x75, 0x20, 0x6f, 0x6e, 0x6c, 0x79, 0x20, 0x6f, 0x6e, 0x65, 0x20, 0x74, 0x69, 0x70,
   0x20, 0x66, 0x6f, 0x72, 0x20, 0x74, 0x68, 0x65, 0x20, 0x66, 0x75, 0x74, 0x75, 0x72, 0x65,
   0x2c, 0x20, 0x73, 0x75, 0x6e, 0x73, 0x63, 0x72, 0x65, 0x65, 0x6e, 0x20, 0x77, 0x6f, 0x75,
   0x6c, 0x64, 0x20, 0x62, 0x65, 0x20, 0x69, 0x74, 0x2e]

/-- The published ciphertext of the RFC 8439 encryption test vector. -/
def RFC_CIPHERTEXT : List Nat :=
  [0x6e, 0x2e, 0x35, 0x9a, 0x25, 0x68, 0xf9, 0x80, 0x41, 0xba, 0x07, 0x28, 0xdd, 0x0d, 0x69,
   0x81, 0xe9, 0x7e, 0x7a, 0xec, 0x1d, 0x43, 0x60, 0xc2, 0x0a, 0x27, 0xaf, 0xcc, 0xfd, 0x9f,
   0xae, 0x0b, 0xf9, 0x1b, 0x65, 0xc5, 0x52, 0x47, 0x33, 0xab, 0x8f, 0x59, 0x3d, 0xab, 0xcd,
   0x62, 0xb3, 0x57, 0x16, 0x39, 0xd6, 0x24, 0xe6, 0x51, 0x52, 0xab, 0x8f, 0x53, 0x0c, 0x35,
   0x9f, 0x08, 0x61, 0xd8, 0x07, 0xca, 0x0d, 0xbf, 0x50, 0x0d, 0x6a, 0x61, 0x56, 0xa3, 0x8e,
   0x08, 0x8a, 0x22, 0xb6, 0x5e, 0x52, 0xbc, 0x51, 0x4d, 0x16, 0xcc, 0xf8, 0x06, 0x81, 0x8c,
   0xe9, 0x1a, 0xb7, 0x79, 0x37, 0x36, 0x5a, 0xf9, 0x0b, 0xbf, 0x74, 0xa3, 0x5b, 0xe6, 0xb4,
   0x0b, 0x8e, 0xed, 0xf2, 0x78, 0x5e, 0x42, 0x87, 0x4d]

theorem length_quarter_round (s : List Nat) (a b c d : Nat) :
    (quarter_round s a b c d).length = s.length := by
  simp [quarter_round]

theorem length_double_round (s : List Nat) : (double_round s).length = s.length := by
  simp [double_round, CHACHA_ROUND_INDICIES, List.foldl, length_quarter_round]

theorem length_iterate_double_round (n : Nat) (s : List Nat) :
    (double_round^[n] s).length = s.length := by
  induction n generalizing s with
  | zero => rfl
  | succ n ih => rw [Function.iterate_succ_apply, ih, length_double_round]

theorem length_chacha_block (s : List Nat) : (chacha_block s).length = s.length := by
  have h := length_iterate_double_round 10 s
  simp only [chacha_block, List.length_zipWith, Nat.iterate] at *
  omega

theorem length_prepare_state (key nonce : List Nat) (count : Nat) :
    (prepare_state key nonce count).length = 16 := by
  simp [prepare_state]

theorem length_keystream_from_state (s : List Nat) :
    (keystream_from_state s).length = 4 * s.length := by
  induction s with
  | nil => rfl
  | cons w ws ih => simp [keystream_from_state, to_le_bytes, ih]; omega

theorem length_serialized_block (key nonce : List Nat) (c : Nat) :
    (keystream_from_state (chacha_block (prepare_state key nonce c))).length = 64 := by
  rw [length_keystream_from_state, length_chacha_block, length_prepare_state]

theorem length_ref_block (key nonce : List Nat) (c : Nat) :
    (ref_block key nonce c).length = 64 := by
  rw [ref_block, length_serialized_block]

theorem length_ref_keystream_bytes (key nonce : List Nat) (start len : Nat) :
    (ref_keystream_bytes key nonce start len).length = len := by
  simp [ref_keystream_bytes]

theorem getD_drop {α : Type} (l : List α) (n i : Nat) (d : α) :
    (l.drop n).getD i d = l.getD (n + i) d := by
  induction l generalizing n with
  | nil => simp
  | cons x xs ih =>
    cases n with
    | zero => simp
    | succ m =>
      rw [List.drop_succ_cons, ih, show m + 1 + i = (m + i) + 1 from by omega,
        List.getD_cons_succ]

theorem getD_take {α : Type} (l : List α) (k i : Nat) (d : α) (h : i < k) :
    (l.take k).getD i d = l.getD i d := by
  induction l generalizing k i with
  | nil => simp
  | cons x xs ih =>
    cases k with
    | zero => omega
    | succ k' =>
      cases i with
      | zero => simp
      | succ i' =>
        rw [List.take_succ_cons, List.getD_cons_succ, List.getD_cons_succ]
        exact ih k' i' (by omega)

theorem map_range_getD (l : List Nat) :
    (List.range l.length).map (fun t => l.getD t 0) = l := by
  induction l with
  | nil => rfl
  | cons x xs ih =>
    rw [List.length_cons, List.range_succ_eq_map, List.map_cons, List.map_map]
    simp only [Function.comp_def, List.getD_cons_succ, List.getD_cons_zero]
    rw [ih]

theorem map_range_getD_take (l : List Nat) (k : Nat) (h : k ≤ l.length) :
    (List.range k).map (fun t => l.getD t 0) = l.take k := by
  have h1 := map_range_getD (l.take k)
  rw [List.length_take, min_eq_left h] at h1
  rw [← h1]
  apply List.map_congr_left
  intro t ht
  rw [List.mem_range] at ht
  exact (getD_take l k t 0 ht).symm

theorem map_range_getD_drop (l : List Nat) (i : Nat) :
    (List.range (l.length - i)).map (fun t => l.getD (i + t) 0) = l.drop i := by
  have h1 := map_range_getD (l.drop i)
  rw [List.length_drop] at h1
  rw [← h1]
  apply List.map_congr_left
  intro t ht
  exact (getD_drop l i t 0).symm

theorem keystream_at_slice_split (key nonce : List Nat) (inner s : Nat) (hs : s ≤ 64) :
    keystream_at_slice key nonce inner s =
      (keystream_from_state (chacha_block (prepare_state key nonce inner))).drop s ++
        (keystream_from_state
          (chacha_block (prepare_state key nonce ((inner + 1) % U32_MOD)))).take s := by
  simp only [keystream_at_slice]
  rw [List.drop_append_of_le_length (by rw [length_serialized_block]; omega)]
  rw [List.take_append_eq_append_take]
  have h1 : ((keystream_from_state (chacha_block (prepare_state key nonce inner))).drop
      s).length = 64 - s := by
    rw [List.length_drop, length_serialized_block]
  rw [List.take_of_length_le (by omega), h1, show 64 - (64 - s) = s from by omega]

theorem length_keystream_at_slice (key nonce : List Nat) (inner s : Nat) (hs : s ≤ 64) :
    (keystream_at_slice key nonce inner s).length = 64 := by
  rw [keystream_at_slice_split key nonce inner s hs, List.length_append, List.length_drop,
    List.length_take, length_serialized_block, length_serialized_block]
  omega

theorem ref_keystream_bytes_add (key nonce : List Nat) (start a b : Nat) :
    ref_keystream_bytes key nonce start (a + b) =
      ref_keystream_bytes key nonce start a ++ ref_keystream_bytes key nonce (start + a) b := by
  simp only [ref_keystream_bytes]
  rw [List.range_add, List.map_append]
  refine congrArg
    ((List.range a).map (fun t => ref_keystream_byte key nonce (start + t)) ++ ·) ?_
  rw [List.map_map]
  apply List.map_congr_left
  intro t ht
  simp only [Function.comp_apply]
  rw [show start + (a + t) = start + a + t from by omega]

theorem ref_keystream_bytes_window (key nonce : List Nat) (m s : Nat) (hs : s < 64) :
    ref_keystream_bytes key nonce (64 * m + s) 64 =
      (ref_block key nonce m).drop s ++ (ref_block key nonce (m + 1)).take s := by
  have hsum : 64 - s + s = 64 := by omega
  have h := ref_keystream_bytes_add key nonce (64 * m + s) (64 - s) s
  rw [hsum] at h
  rw [h]
  have h1 : ref_keystream_bytes key nonce (64 * m + s) (64 - s) =
      (ref_block key nonce m).drop s := by
    rw [← map_range_getD_drop (ref_block key nonce m) s, length_ref_block]
    simp only [ref_keystream_bytes]
    apply List.map_congr_left
    intro t ht
    rw [List.mem_range] at ht
    simp only [ref_keystream_byte]
    rw [show (64 * m + s + t) / 64 = m from by omega,
      show (64 * m + s + t) % 64 = s + t from by omega]
  have h2 : ref_keystream_bytes key nonce (64 * m + s + (64 - s)) s =
      (ref_block key nonce (m + 1)).take s := by
    rw [show 64 * m + s + (64 - s) = 64 * (m + 1) from by omega]
    rw [← map_range_getD_take (ref_block key nonce (m + 1)) s
      (by rw [length_ref_block]; omega)]
    simp only [ref_keystream_bytes]
    apply List.map_congr_left
    intro t ht
    rw [List.mem_range] at ht
    simp only [ref_keystream_byte]
    rw [show (64 * (m + 1) + t) / 64 = m + 1 from by omega,
      show (64 * (m + 1) + t) % 64 = t from by omega]
  rw [h1, h2]

theorem keystream_at_slice_as_ref (key nonce : List Nat) (m s : Nat) (hs : s < 64) :
    keystream_at_slice key nonce (m % U32_MOD) s =
      ref_keystream_bytes key nonce (64 * m + s) 64 := by
  rw [ref_keystream_bytes_window key nonce m s hs,
    keystream_at_slice_split key nonce (m % U32_MOD) s (by omega)]
  simp only [ref_block]
  rw [Nat.mod_add_mod]

theorem zipWith_take_right (f : Nat → Nat → Nat) :
    ∀ (l l' : List Nat), List.zipWith f l l' = List.zipWith f l (l'.take l.length)
  | [], _ => by simp
  | _ :: _, [] => by simp
  | x :: xs, y :: ys => by
    simp only [List.length_cons, List.take_succ_cons, List.zipWith_cons_cons]
    rw [zipWith_take_right f xs ys]

theorem zipWith_take_left (f : Nat → Nat → Nat) :
    ∀ (l l' : List Nat), List.zipWith f l l' = List.zipWith f (l.take l'.length) l'
  | [], _ => by simp
  | _ :: _, [] => by simp
  | x :: xs, y :: ys => by
    simp only [List.length_cons, List.take_succ_cons, List.zipWith_cons_cons]
    rw [zipWith_take_left f xs ys]

theorem nat_xor_cancel (a b : Nat) : Nat.xor (Nat.xor a b) b = a := by
  show a ^^^ b ^^^ b = a
  rw [Nat.xor_assoc, Nat.xor_self, Nat.xor_zero]

theorem nat_zero_xor (x : Nat) : Nat.xor 0 x = x := by
  show 0 ^^^ x = x
  rw [Nat.zero_xor]

theorem zipWith_xor_cancel :
    ∀ (l ks : List Nat), l.length ≤ ks.length →
      List.zipWith Nat.xor (List.zipWith Nat.xor l ks) ks = l
  | [], _, _ => by simp
  | x :: xs, [], h => by simp at h
  | x :: xs, k :: ks, h => by
    simp only [List.zipWith_cons_cons]
    rw [nat_xor_cancel, zipWith_xor_cancel xs ks (by simpa using h)]

theorem zipWith_xor_replicate_zero :
    ∀ (j : Nat) (l : List Nat),
      List.zipWith Nat.xor (List.replicate j 0) l = l.take j
  | 0, _ => by simp
  | j + 1, [] => by simp
  | j + 1, x :: xs => by
    simp only [List.replicate_succ, List.zipWith_cons_cons, List.take_succ_cons,
      nat_zero_xor]
    rw [zipWith_xor_replicate_zero j xs]

theorem apply_full_blocks_spec (key nonce : List Nat) (s : Nat) (hs : s < 64) :
    ∀ (n m : Nat) (msg : List Nat), 64 * n ≤ msg.length →
      apply_full_blocks key nonce s (m % U32_MOD) n msg =
        ((m + n) % U32_MOD,
         List.zipWith Nat.xor msg (ref_keystream_bytes key nonce (64 * m + s) (64 * n)),
         msg.drop (64 * n)) := by
  intro n
  induction n with
  | zero =>
    intro m msg _
    simp [apply_full_blocks, ref_keystream_bytes]
  | succ n ih =>
    intro m msg h
    have h64 : 64 ≤ msg.length := by omega
    simp only [apply_full_blocks]
    rw [Nat.mod_add_mod]
    rw [ih (m + 1) (msg.drop 64) (by rw [List.length_drop]; omega)]
    rw [keystream_at_slice_as_ref key nonce m s hs]
    have hsplit : ref_keystream_bytes key nonce (64 * m + s) (64 * (n + 1)) =
        ref_keystream_bytes key nonce (64 * m + s) 64 ++
          ref_keystream_bytes key nonce (64 * (m + 1) + s) (64 * n) := by
      rw [show 64 * (n + 1) = 64 + 64 * n from by omega,
        ref_keystream_bytes_add key nonce (64 * m + s) 64 (64 * n),
        show 64 * m + s + 64 = 64 * (m + 1) + s from by omega]
    have hmsg : List.zipWith Nat.xor msg
        (ref_keystream_bytes key nonce (64 * m + s) 64 ++
          ref_keystream_bytes key nonce (64 * (m + 1) + s) (64 * n)) =
        List.zipWith Nat.xor (msg.take 64) (ref_keystream_bytes key nonce (64 * m + s) 64) ++
          List.zipWith Nat.xor (msg.drop 64)
            (ref_keystream_bytes key nonce (64 * (m + 1) + s) (64 * n)) := by
      conv_lhs => rw [← List.take_append_drop 64 msg]
      rw [List.zipWith_append Nat.xor (msg.take 64) (msg.drop 64)
        (ref_keystream_bytes key nonce (64 * m + s) 64)
        (ref_keystream_bytes key nonce (64 * (m + 1) + s) (64 * n))
        (by rw [List.length_take, length_ref_keystream_bytes]; omega)]
    rw [hsplit, hmsg]
    rw [List.drop_drop, show (64 : Nat) + 64 * n = 64 * (n + 1) from by omega,
      show m + 1 + n = m + (n + 1) from by omega]

theorem take_ref_keystream_bytes (key nonce : List Nat) (start len r : Nat) (h : r ≤ len) :
    (ref_keystream_bytes key nonce start len).take r = ref_keystream_bytes key nonce start r := by
  simp only [ref_keystream_bytes]
  rw [← List.map_take, List.take_range, min_eq_left h]

theorem zipWith_append_split (f : Nat → Nat → Nat) (msg A B : List Nat)
    (h : A.length ≤ msg.length) :
    List.zipWith f msg (A ++ B) =
      List.zipWith f msg A ++ List.zipWith f (msg.drop A.length) B := by
  conv_lhs => rw [← List.take_append_drop A.length msg]
  rw [List.zipWith_append f (msg.take A.length) (msg.drop A.length) A B
    (by rw [List.length_take]; omega)]
  rw [← zipWith_take_left f msg A]

theorem apply_keystream_spec (key nonce : List Nat) (m s : Nat) (msg : List Nat)
    (hs : s < 64) :
    ChaCha20.apply_keystream ⟨key, nonce, m % U32_MOD, s⟩ msg =
      (⟨key, nonce, (m + (msg.length + 63) / 64) % U32_MOD, s⟩,
       List.zipWith Nat.xor msg (ref_keystream_bytes key nonce (64 * m + s) msg.length)) := by
  have hdm := Nat.div_add_mod msg.length 64
  simp only [ChaCha20.apply_keystream, CHACHA_BLOCKSIZE]
  rw [apply_full_blocks_spec key nonce s hs (msg.length / 64) m msg (by omega)]
  by_cases hr : msg.length % 64 > 0
  · rw [if_pos hr]
    have hnc : ((m + msg.length / 64) % U32_MOD + 1) % U32_MOD =
        (m + (msg.length + 63) / 64) % U32_MOD := by
      rw [Nat.mod_add_mod, show m + msg.length / 64 + 1 = m + (msg.length / 64 + 1) from by
        omega, show msg.length / 64 + 1 = (msg.length + 63) / 64 from by omega]
    have hrest : List.zipWith Nat.xor (msg.drop (64 * (msg.length / 64)))
        (keystream_at_slice key nonce ((m + msg.length / 64) % U32_MOD) s) =
        List.zipWith Nat.xor (msg.drop (64 * (msg.length / 64)))
          (ref_keystream_bytes key nonce (64 * m + s + 64 * (msg.length / 64))
            (msg.length % 64)) := by
      rw [keystream_at_slice_as_ref key nonce (m + msg.length / 64) s hs]
      rw [zipWith_take_right Nat.xor (msg.drop (64 * (msg.length / 64)))]
      rw [List.length_drop]
      rw [show msg.length - 64 * (msg.length / 64) = msg.length % 64 from by omega]
      rw [take_ref_keystream_bytes key nonce _ 64 (msg.length % 64) (by omega)]
      rw [show 64 * (m + msg.length / 64) + s = 64 * m + s + 64 * (msg.length / 64) from by
        omega]
    have hsplit : ref_keystream_bytes key nonce (64 * m + s) msg.length =
        ref_keystream_bytes key nonce (64 * m + s) (64 * (msg.length / 64)) ++
          ref_keystream_bytes key nonce (64 * m + s + 64 * (msg.length / 64))
            (msg.length % 64) := by
      rw [show msg.length = 64 * (msg.length / 64) + msg.length % 64 from by omega]
      rw [ref_keystream_bytes_add]
      rw [show 64 * ((64 * (msg.length / 64) + msg.length % 64) / 64) =
        64 * (msg.length / 64) from by omega,
        show (64 * (msg.length / 64) + msg.length % 64) % 64 = msg.length % 64 from by omega]
    have hwhole := zipWith_append_split Nat.xor msg
      (ref_keystream_bytes key nonce (64 * m + s) (64 * (msg.length / 64)))
      (ref_keystream_bytes key nonce (64 * m + s + 64 * (msg.length / 64)) (msg.length % 64))
      (by rw [length_ref_keystream_bytes]; omega)
    rw [length_ref_keystream_bytes] at hwhole
    rw [hnc, hrest, hsplit, hwhole]
  · rw [if_neg hr]
    have hr0 : msg.length % 64 = 0 := by omega
    rw [show (msg.length + 63) / 64 = msg.length / 64 from by omega]
    rw [show 64 * (msg.length / 64) = msg.length from by omega]
    rw [List.drop_length, List.append_nil]

theorem from_le_bytes_slice4 (l : List Nat) (i : Nat) :
    from_le_bytes (slice4 l i) = le_word l i := by
  simp only [from_le_bytes, slice4, le_word]
  rw [getD_take _ _ _ _ (by omega), getD_take _ _ _ _ (by omega),
    getD_take _ _ _ _ (by omega), getD_take _ _ _ _ (by omega),
    getD_drop, getD_drop, getD_drop, getD_drop]
  norm_num

/-- C1: for every key, nonce and 32-bit seek index c, apply_keystream on a cipher
built by new XORs into the buffer exactly keystream bytes c .. c + L - 1 of the
RFC 8439 keystream of (key, nonce), where the reference keystream is given by
the independent definition ref_keystream_bytes. -/
theorem C1_apply_keystream_matches_reference (key nonce : List Nat) (c : Nat)
    (hc : c < U32_MOD) (msg : List Nat) :
    ((ChaCha20.new key nonce c).apply_keystream msg).2 =
      List.zipWith Nat.xor msg (ref_keystream_bytes key nonce c msg.length) := by
  have hd : c / 64 < U32_MOD := Nat.lt_of_le_of_lt (Nat.div_le_self c 64) hc
  have hnew : ChaCha20.new key nonce c =
      ⟨key, nonce, (c / 64) % U32_MOD, c % 64⟩ := by
    simp only [ChaCha20.new]
    rw [Nat.mod_eq_of_lt hd]
  rw [hnew, apply_keystream_spec key nonce (c / 64) (c % 64) msg (by omega)]
  rw [show 64 * (c / 64) + c % 64 = c from by omega]

/-- C1 witness at a concrete input. -/
theorem C1_apply_keystream_matches_reference_witness :
    3 < U32_MOD ∧
      ((ChaCha20.new [] [] 3).apply_keystream [1, 2]).2 =
        List.zipWith Nat.xor [1, 2] (ref_keystream_bytes [] [] 3 ([1, 2] : List Nat).length) :=
  ⟨by decide, C1_apply_keystream_matches_reference [] [] 3 (by decide) [1, 2]⟩

/-- C2: with the RFC 8439 key, nonce 000000000000004a00000000 and seek counter 64,
apply_keystream maps the 114-byte sunscreen plaintext to the published
ciphertext, and maps that ciphertext back to the plaintext. -/
theorem C2_rfc8439_encryption_vector :
    ((ChaCha20.new RFC_KEY RFC_NONCE 64).apply_keystream RFC_PLAINTEXT).2 =
        RFC_CIPHERTEXT ∧
      ((ChaCha20.new RFC_KEY RFC_NONCE 64).apply_keystream RFC_CIPHERTEXT).2 =
        RFC_PLAINTEXT := by
  constructor
  · set_option maxRecDepth 1000000 in decide
  · set_option maxRecDepth 1000000 in decide

/-- C3: quarter_round at positions (0, 1, 2, 3) performs exactly the ARX sequence
with wrapping additions and rotation amounts 16, 12, 8, 7, and on the test
vector 0x11111111, 0x01020304, 0x9b8d6f43, 0x01234567 it leaves
0xea2a92f4, 0xcb1cf8ce, 0x4581472e, 0x5881c4bb at positions 0 to 3. -/
theorem C3_quarter_round_arx_sequence_and_vector :
    (∀ w0 w1 w2 w3 (rest : List Nat),
       quarter_round (w0 :: w1 :: w2 :: w3 :: rest) 0 1 2 3 =
         (let a1 := wadd w0 w1
          let d1 := rotl (wxor w3 a1) 16
          let c1 := wadd w2 d1
          let b1 := rotl (wxor w1 c1) 12
          let a2 := wadd a1 b1
          let d2 := rotl (wxor d1 a2) 8
          let c2 := wadd c1 d2
          let b2 := rotl (wxor b1 c2) 7
          a2 :: b2 :: c2 :: d2 :: rest)) ∧
      (quarter_round
          [0x11111111, 0x01020304, 0x9b8d6f43, 0x01234567,
           0x11111111, 0x01020304, 0x9b8d6f43, 0x01234567,
           0x11111111, 0x01020304, 0x9b8d6f43, 0x01234567,
           0x11111111, 0x01020304, 0x9b8d6f43, 0x01234567] 0 1 2 3).take 4 =
        [0xea2a92f4, 0xcb1cf8ce, 0x4581472e, 0x5881c4bb] := by
  constructor
  · intro w0 w1 w2 w3 rest
    rfl
  · decide

/-- C4: chacha_block saves the initial state, applies the double round ten times
with the eight quadruples in the normative order spelled out by
spec_double_round, and feeds the initial words forward with wrapping addition;
on the standard counter-1 test state it produces the published output state. -/
theorem C4_chacha_block_structure :
    (∀ s : List Nat,
       chacha_block s = List.zipWith wadd (spec_double_round^[10] s) s) ∧
      chacha_block
          [0x61707865, 0x3320646e, 0x79622d32, 0x6b206574,
           0x03020100, 0x07060504, 0x0b0a0908, 0x0f0e0d0c,
           0x13121110, 0x17161514, 0x1b1a1918, 0x1f1e1d1c,
           0x00000001, 0x09000000, 0x4a000000, 0x00000000] =
        [0xe4e7f110, 0x15593bd1, 0x1fdd0f50, 0xc47120a3,
         0xc7f4d1c7, 0x0368c033, 0x9aaa2204, 0x4e6cd4c3,
         0x466482d2, 0x09aa9f07, 0x05d7c214, 0xa2028bd9,
         0xd19c12b5, 0xb94e16de, 0xe883d0cb, 0x4e3c50a2] := by
  constructor
  · intro s
    have hd : double_round = spec_double_round := by
      funext t
      simp only [double_round, spec_double_round, CHACHA_ROUND_INDICIES, List.foldl]
    simp only [chacha_block, hd]
  · set_option maxRecDepth 100000 in set_option maxHeartbeats 1000000 in decide

/-- C5: prepare_state lays out the constants at words 0 to 3, the eight
little-endian key words at 4 to 11, the counter at word 12, and the three
little-endian nonce words at 13 to 15. -/
theorem C5_prepare_state_layout (key nonce : List Nat) (count : Nat) :
    prepare_state key nonce count =
      [0x61707865, 0x3320646e, 0x79622d32, 0x6b206574,
       le_word key 0, le_word key 4, le_word key 8, le_word key 12,
       le_word key 16, le_word key 20, le_word key 24, le_word key 28,
       count,
       le_word nonce 0, le_word nonce 4, le_word nonce 8] := by
  show [WORD_1, WORD_2, WORD_3, WORD_4,
      from_le_bytes (slice4 key 0), from_le_bytes (slice4 key 4),
      from_le_bytes (slice4 key 8), from_le_bytes (slice4 key 12),
      from_le_bytes (slice4 key 16), from_le_bytes (slice4 key 20),
      from_le_bytes (slice4 key 24), from_le_bytes (slice4 key 28),
      count,
      from_le_bytes (slice4 nonce 0), from_le_bytes (slice4 nonce 4),
      from_le_bytes (slice4 nonce 8)] = _
  simp only [from_le_bytes_slice4]
  rfl

/-- C6: applying apply_keystream with a cipher built from (key, nonce, index) and
then applying apply_keystream with a cipher built from the same parameters
restores the original buffer, for every buffer length. -/
theorem C6_involution (key nonce : List Nat) (seekidx : Nat) (hseek : seekidx < U32_MOD)
    (msg : List Nat) :
    ((ChaCha20.new key nonce seekidx).apply_keystream
        (((ChaCha20.new key nonce seekidx).apply_keystream msg).2)).2 = msg := by
  have happ : ∀ msg2 : List Nat,
      ((ChaCha20.new key nonce seekidx).apply_keystream msg2).2 =
        List.zipWith Nat.xor msg2 (ref_keystream_bytes key nonce seekidx msg2.length) := by
    intro msg2
    have hd : seekidx / 64 < U32_MOD := Nat.lt_of_le_of_lt (Nat.div_le_self _ 64) hseek
    have hnew : ChaCha20.new key nonce seekidx =
        ⟨key, nonce, (seekidx / 64) % U32_MOD, seekidx % 64⟩ := by
      simp only [ChaCha20.new]
      rw [Nat.mod_eq_of_lt hd]
    rw [hnew, apply_keystream_spec key nonce (seekidx / 64) (seekidx % 64) msg2 (by omega)]
    rw [show 64 * (seekidx / 64) + seekidx % 64 = seekidx from by omega]
  rw [happ, happ]
  have hlen : (ref_keystream_bytes key nonce seekidx msg.length).length = msg.length :=
    length_ref_keystream_bytes key nonce seekidx msg.length
  rw [List.length_zipWith, hlen, Nat.min_self]
  exact zipWith_xor_cancel msg _ (le_of_eq hlen.symm)

/-- C6 witness at a concrete input. -/
theorem C6_involution_witness :
    0 < U32_MOD ∧
      ((ChaCha20.new [] [] 0).apply_keystream
          (((ChaCha20.new [] [] 0).apply_keystream [5]).2)).2 = [5] :=
  ⟨by decide, C6_involution [] [] 0 (by decide) [5]⟩

/-- C7: the keystream bytes a cipher constructed at byte offset 64 n + k xors
into a buffer agree with constructing from block n, calling get_keystream, and
slicing the returned block from byte k onward, over the first 64 - k bytes. -/
theorem C7_offset_block_consistency (key nonce : List Nat) (n k : Nat)
    (hk : k < 64) (hn : 64 * n + k < U32_MOD) :
    ((ChaCha20.new key nonce (64 * n + k)).apply_keystream (List.replicate (64 - k) 0)).2 =
      (((ChaCha20.new_from_block key nonce n).get_keystream n).2).drop k := by
  have hnU : n < U32_MOD := by
    simp only [U32_MOD] at hn ⊢
    omega
  have hnew : ChaCha20.new key nonce (64 * n + k) = ⟨key, nonce, n % U32_MOD, k⟩ := by
    simp only [ChaCha20.new]
    rw [show (64 * n + k) / 64 = n from by omega, show (64 * n + k) % 64 = k from by omega,
      Nat.mod_eq_of_lt hnU]
  rw [hnew, apply_keystream_spec key nonce n k _ hk, List.length_replicate]
  have hz := zipWith_xor_replicate_zero (64 - k)
    (ref_keystream_bytes key nonce (64 * n + k) (64 - k))
  rw [hz, List.take_of_length_le
    (le_of_eq (length_ref_keystream_bytes key nonce (64 * n + k) (64 - k)))]
  have hks := keystream_at_slice_as_ref key nonce n 0 (by omega)
  rw [Nat.mod_eq_of_lt hnU] at hks
  simp only [ChaCha20.get_keystream, ChaCha20.new_from_block, ChaCha20.block]
  rw [hks, ref_keystream_bytes_window key nonce n 0 (by omega)]
  rw [List.drop_zero, List.take_zero, List.append_nil]
  rw [← map_range_getD_drop (ref_block key nonce n) k, length_ref_block]
  simp only [ref_keystream_bytes]
  apply List.map_congr_left
  intro t ht
  rw [List.mem_range] at ht
  simp only [ref_keystream_byte]
  rw [show (64 * n + k + t) / 64 = n from by omega,
    show (64 * n + k + t) % 64 = k + t from by omega]

/-- C7 witness at a concrete input. -/
theorem C7_offset_block_consistency_witness :
    5 < 64 ∧ 64 * 1 + 5 < U32_MOD ∧
      ((ChaCha20.new [] [] (64 * 1 + 5)).apply_keystream (List.replicate (64 - 5) 0)).2 =
        (((ChaCha20.new_from_block [] [] 1).get_keystream 1).2).drop 5 :=
  ⟨by decide, by decide, C7_offset_block_consistency [] [] 1 5 (by decide) (by decide)⟩

/-- C8 counterexample: get_keystream does not advance the cursor past the
requested block; after the call the block index equals the requested block,
not its successor. -/
theorem C8_counterexample_cursor_not_advanced :
    ((ChaCha20.new [] [] 0).get_keystream 5).1.inner ≠ 5 + 1 := by
  decide

/-- C8 (amended): get_keystream(b) repositions the cursor to block b with
offset 0 and returns the 64-byte keystream block for b; after the call the
internal block index equals b, not b + 1. -/
theorem C8_get_keystream_repositions_and_returns_block (c : ChaCha20) (b : Nat)
    (hb : b < U32_MOD) :
    (c.get_keystream b).1 = { c with inner := b, seek := 0 } ∧
      (c.get_keystream b).2 = ref_block c.key c.nonce b := by
  constructor
  · rfl
  · simp only [ChaCha20.get_keystream, ChaCha20.block]
    have h := keystream_at_slice_as_ref c.key c.nonce b 0 (by omega)
    rw [Nat.mod_eq_of_lt hb] at h
    rw [h, ref_keystream_bytes_window c.key c.nonce b 0 (by omega)]
    rw [List.drop_zero, List.take_zero, List.append_nil]

/-- C8 witness at a concrete input. -/
theorem C8_get_keystream_repositions_and_returns_block_witness :
    3 < U32_MOD ∧
      (((ChaCha20.new [] [] 0).get_keystream 3).1 =
          { ChaCha20.new [] [] 0 with inner := 3, seek := 0 } ∧
        ((ChaCha20.new [] [] 0).get_keystream 3).2 = ref_block [] [] 3) :=
  ⟨by decide, C8_get_keystream_repositions_and_returns_block (ChaCha20.new [] [] 0) 3
    (by decide)⟩

/-- C9: with the block index at 2 ^ 32 - 1, apply_keystream completes with all
block-index arithmetic performed modulo 2 ^ 32: after consuming 65 bytes the
index has wrapped to 1, the applied keystream is the reference keystream at
that offset, and the keystream byte following block 2 ^ 32 - 1 comes from
block 0. -/
theorem C9_counter_wraps_silently (key nonce : List Nat) (msg : List Nat)
    (hlen : msg.length = 65) :
    ((ChaCha20.new_from_block key nonce (U32_MOD - 1)).apply_keystream msg).1.inner = 1 ∧
      ((ChaCha20.new_from_block key nonce (U32_MOD - 1)).apply_keystream msg).2 =
        List.zipWith Nat.xor msg
          (ref_keystream_bytes key nonce (64 * (U32_MOD - 1)) 65) ∧
      ref_keystream_byte key nonce (64 * (U32_MOD - 1) + 64) =
        (ref_block key nonce 0).getD 0 0 := by
  have hnew : ChaCha20.new_from_block key nonce (U32_MOD - 1) =
      ⟨key, nonce, (U32_MOD - 1) % U32_MOD, 0⟩ := by
    simp only [ChaCha20.new_from_block]
    rw [Nat.mod_eq_of_lt (by simp only [U32_MOD]; omega)]
  rw [hnew, apply_keystream_spec key nonce (U32_MOD - 1) 0 msg (by omega), hlen]
  refine ⟨?_, ?_, ?_⟩
  · show (U32_MOD - 1 + (65 + 63) / 64) % U32_MOD = 1
    simp only [U32_MOD]
  · show List.zipWith Nat.xor msg
        (ref_keystream_bytes key nonce (64 * (U32_MOD - 1) + 0) 65) = _
    rw [Nat.add_zero]
  · simp only [ref_keystream_byte]
    rw [show (64 * (U32_MOD - 1) + 64) / 64 = U32_MOD from by simp only [U32_MOD],
      show (64 * (U32_MOD - 1) + 64) % 64 = 0 from by simp only [U32_MOD]]
    simp only [ref_block, Nat.mod_self, Nat.zero_mod]

/-- C9 witness at a concrete input. -/
theorem C9_counter_wraps_silently_witness :
    (List.replicate 65 (0 : Nat)).length = 65 ∧
      (((ChaCha20.new_from_block [] [] (U32_MOD - 1)).apply_keystream
            (List.replicate 65 (0 : Nat))).1.inner = 1 ∧
        ((ChaCha20.new_from_block [] [] (U32_MOD - 1)).apply_keystream
            (List.replicate 65 (0 : Nat))).2 =
          List.zipWith Nat.xor (List.replicate 65 (0 : Nat))
            (ref_keystream_bytes [] [] (64 * (U32_MOD - 1)) 65) ∧
        ref_keystream_byte [] [] (64 * (U32_MOD - 1) + 64) =
          (ref_block [] [] 0).getD 0 0) :=
  ⟨by simp, C9_counter_wraps_silently [] [] (List.replicate 65 (0 : Nat)) (by simp)⟩

/-- C10: every public operation establishes or preserves the invariant that the
intra-block offset is below 64, apply_keystream leaves the offset unchanged,
and under the invariant the 64-byte slice of the 128-byte window is in bounds,
so keystream generation always yields 64 bytes. -/
theorem C10_offset_invariant (key nonce : List Nat) (s b : Nat) (c : ChaCha20)
    (msg : List Nat) (hc : c.seek < 64) :
    (ChaCha20.new key nonce s).seek < 64 ∧
      (ChaCha20.new_from_block key nonce b).seek < 64 ∧
      (c.seek_index s).seek < 64 ∧
      (c.block b).seek < 64 ∧
      (c.apply_keystream msg).1.seek = c.seek ∧
      (c.get_keystream b).1.seek < 64 ∧
      c.seek + 64 ≤ 128 ∧
      (keystream_at_slice c.key c.nonce c.inner c.seek).length = 64 := by
  refine ⟨?_, ?_, ?_, ?_, ?_, ?_, ?_, ?_⟩
  · show s % 64 < 64
    omega
  · show (0 : Nat) < 64
    omega
  · show s % 64 < 64
    omega
  · show (0 : Nat) < 64
    omega
  · by_cases h : msg.length % 64 > 0
    · simp only [ChaCha20.apply_keystream, if_pos h]
    · simp only [ChaCha20.apply_keystream, if_neg h]
  · show (0 : Nat) < 64
    omega
  · omega
  · exact length_keystream_at_slice c.key c.nonce c.inner c.seek (by omega)

/-- C10 witness at a concrete input. -/
theorem C10_offset_invariant_witness :
    (ChaCha20.new [] [] 0).seek < 64 ∧
      ((ChaCha20.new [] [] 5).seek < 64 ∧
        (ChaCha20.new_from_block [] [] 2).seek < 64 ∧
        ((ChaCha20.new [] [] 0).seek_index 5).seek < 64 ∧
        ((ChaCha20.new [] [] 0).block 2).seek < 64 ∧
        ((ChaCha20.new [] [] 0).apply_keystream []).1.seek = (ChaCha20.new [] [] 0).seek ∧
        ((ChaCha20.new [] [] 0).get_keystream 2).1.seek < 64 ∧
        (ChaCha20.new [] [] 0).seek + 64 ≤ 128 ∧
        (keystream_at_slice (ChaCha20.new [] [] 0).key (ChaCha20.new [] [] 0).nonce
            (ChaCha20.new [] [] 0).inner (ChaCha20.new [] [] 0).seek).length = 64) :=
  ⟨by decide, C10_offset_invariant [] [] 5 2 (ChaCha20.new [] [] 0) [] (by decide)⟩
